import Mathlib

/-!
Shallow embedding of the davos project-naming and lifecycle logic
(src/davos/core/project.py) and of the pure-Python helper shims
(src/davos/implementations/python.py), together with theorems settling
the frozen claims about them.

Strings are modelled as List Char.  Paths are modelled as their POSIX
string form (PATHSEP is '/', as on Unix).  The filesystem is modelled as
two lists of paths (directories and files).  `Path.resolve` (which
depends on the environment: cwd, symlinks, HOME, environment variables)
is modelled as an oracle function passed to the resolver.
-/

/-- Conversion from a Lean string literal to the List Char representation
used throughout this development. -/
def strL (s : String) : List Char := s.data

/-- PATHSEP = os.sep, modelled for a Unix host as in project.py line 24. -/
def pathsepL : List Char := ['/']

/-- PATHSEP_REPLACEMENT = the three-underscore placeholder token
(project.py line 25). -/
def pathsepReplacementL : List Char := ['_', '_', '_']

/-- The notebook extension string as used in project.py. -/
def ipynbExtL : List Char := ['.', 'i', 'p', 'y', 'n', 'b']

/-- Boolean test that the first list is a prefix of the second
(Python str.startswith at one position of a scan). -/
def isPrefixL : List Char → List Char → Bool
  | [], _ => true
  | _ :: _, [] => false
  | a :: as, b :: bs => (a == b) && isPrefixL as bs

/-- Boolean substring test, modelling the Python expression
"pat in s" for strings. -/
def occursL (pat : List Char) : List Char → Bool
  | [] => pat.isEmpty
  | c :: rest => isPrefixL pat (c :: rest) || occursL pat rest

/-- Fuel-driven worker for `replaceList`; the fuel is an upper bound on
the length of the string still to scan, so a first argument of
`s.length` always suffices. -/
def replaceAux (pat rep : List Char) : Nat → List Char → List Char
  | 0, s => s
  | _ + 1, [] => []
  | fuel + 1, c :: rest =>
    if !pat.isEmpty && isPrefixL pat (c :: rest) then
      rep ++ replaceAux pat rep fuel ((c :: rest).drop pat.length)
    else
      c :: replaceAux pat rep fuel rest

/-- Embedding of Python str.replace(pat, rep): left-to-right,
non-overlapping replacement of every occurrence.  All call sites in the
source use a non-empty pattern. -/
def replaceList (pat rep s : List Char) : List Char :=
  replaceAux pat rep s.length s

/-- Split a string on the '/' character (used to model pathlib
component parsing). -/
def splitSlash : List Char → List (List Char)
  | [] => [[]]
  | c :: rest =>
    match splitSlash rest with
    | [] => [[]]
    | cur :: parts => if c = '/' then [] :: cur :: parts else (c :: cur) :: parts

/-- Join path components with '/' (inverse of `splitSlash` on clean
component lists). -/
def joinSlash : List (List Char) → List Char
  | [] => []
  | [c] => c
  | c :: c2 :: rest => c ++ '/' :: joinSlash (c2 :: rest)

/-- Model of str(pathlib.PurePosixPath(s)): drop empty and "."
components, keep a root of '/' (or the special '//' root when the
string starts with exactly two slashes), and render '.' for an empty
relative path. -/
def pathNormStr (s : List Char) : List Char :=
  let comps := (splitSlash s).filter (fun c => !c.isEmpty && !(c == ['.']))
  let body := joinSlash comps
  if isPrefixL ['/', '/'] s && !isPrefixL ['/', '/', '/'] s then '/' :: '/' :: body
  else if isPrefixL ['/'] s then '/' :: body
  else if body.isEmpty then ['.'] else body

/-- Index of the last occurrence of a character in a string
(Python str.rfind, as an Option). -/
def rfindIdx (c : Char) : List Char → Option Nat
  | [] => none
  | a :: rest =>
    match rfindIdx c rest with
    | some i => some (i + 1)
    | none => if a = c then some 0 else none

/-- The final path component (pathlib PurePath.name, for paths with no
trailing slash). -/
def lastComponent (p : List Char) : List Char :=
  match (splitSlash p).getLast? with
  | some c => c
  | none => []

/-- pathlib suffix computation on a single file name: the part from the
last dot, provided that dot is neither the first nor the last character
of the name. -/
def suffixOfName (n : List Char) : List Char :=
  match rfindIdx '.' n with
  | some i => if 0 < i ∧ i < n.length - 1 then n.drop i else []
  | none => []

/-- Model of pathlib PurePath.suffix on a path string. -/
def pathSuffix (p : List Char) : List Char :=
  suffixOfName (lastComponent p)

/-- The parent directory of a path string (pathlib PurePath.parent). -/
def parentDir (p : List Char) : List Char :=
  match rfindIdx '/' p with
  | some i => if i = 0 then ['/'] else p.take i
  | none => ['.']

/-- The error kinds surfaced by the embedded code.  DavosProjectError is
the domain-specific naming error; the OS-level exceptions raised by
pathlib/shutil operations are collapsed to their kind. -/
inductive DavosError
  | davosProjectError
  | fileNotFoundError
  | osError
  | calledProcessError (code : Int)
  | notImplemented
  deriving DecidableEq

/-- The filesystem model: the set of existing directory paths and the
set of existing file paths, each keyed by its string form. -/
structure FS where
  dirs : List (List Char)
  files : List (List Char)
  deriving DecidableEq

/-- pathlib Path.is_dir() against the filesystem model. -/
def FS.isDir (fs : FS) (p : List Char) : Bool :=
  decide (p ∈ fs.dirs)

/-- pathlib Path.is_file() against the filesystem model. -/
def FS.isFile (fs : FS) (p : List Char) : Bool :=
  decide (p ∈ fs.files)

/-- Path.mkdir(parents=False, exist_ok=True): succeed without change if
the directory exists, create it if its parent exists, otherwise raise
FileNotFoundError. -/
def FS.mkdir (fs : FS) (p : List Char) : Except DavosError FS :=
  if fs.isDir p then .ok fs
  else if fs.isDir (parentDir p) then .ok { fs with dirs := p :: fs.dirs }
  else .error .fileNotFoundError

/-- True when p is q or q lies strictly below p. -/
def underEq (p q : List Char) : Bool :=
  (q == p) || isPrefixL (p ++ ['/']) q

/-- True when q lies strictly below directory p. -/
def strictUnder (p q : List Char) : Bool :=
  isPrefixL (p ++ ['/']) q

/-- shutil.rmtree: recursively delete a directory and everything under
it; raises if the target is not an existing directory. -/
def FS.rmtree (fs : FS) (p : List Char) : Except DavosError FS :=
  if fs.isDir p then
    .ok { dirs := fs.dirs.filter (fun d => !underEq p d),
          files := fs.files.filter (fun f => !strictUnder p f) }
  else .error .fileNotFoundError

/-- True when the directory p has at least one child entry. -/
def FS.hasChild (fs : FS) (p : List Char) : Bool :=
  fs.dirs.any (fun d => strictUnder p d) || fs.files.any (fun f => strictUnder p f)

/-- Path.rmdir(): remove an existing empty directory; every failure
(missing path, non-empty directory) is an OSError. -/
def FS.rmdir (fs : FS) (p : List Char) : Except DavosError FS :=
  if !fs.isDir p then .error .osError
  else if fs.hasChild p then .error .osError
  else .ok { fs with dirs := fs.dirs.filter (fun d => !(d == p)) }

/-- The two classes the ProjectChecker metaclass can choose to
instantiate (project.py lines 38-76). -/
inductive ProjClass
  | concrete
  | abstract
  deriving DecidableEq

/-- Embedding of ProjectChecker.__call__ (project.py lines 38-76).
The argument resolve models
Path(expandvars(name)).expanduser().resolve(strict=False), an
environment-dependent operation.  The result is either the
DavosProjectError raised for an invalid path name, or the class to
instantiate together with the normalized name passed to __init__. -/
def projectChecker (fs : FS) (resolve : List Char → List Char) (name : List Char) :
    Except DavosError (ProjClass × List Char) :=
  if occursL pathsepL name then
    let namePath := resolve name
    if !(pathSuffix namePath == ipynbExtL) || fs.isDir namePath then
      .error .davosProjectError
    else if !fs.isFile namePath then .ok (.abstract, namePath)
    else .ok (.concrete, namePath)
  else if occursL pathsepReplacementL name then
    let namePath := pathNormStr (replaceList pathsepReplacementL pathsepL name ++ ipynbExtL)
    if !fs.isFile namePath then .ok (.abstract, namePath)
    else .ok (.concrete, namePath)
  else .ok (.concrete, name)

/-- Embedding of the safe_name computation in Project._set_names
(project.py line 113): replace every PATHSEP with the placeholder
token, then delete every occurrence of the string ".ipynb". -/
def safe_name (name : List Char) : List Char :=
  replaceList ipynbExtL [] (replaceList pathsepL pathsepReplacementL name)

/-- PurePath.joinpath with a single relative component. -/
def joinPath (base child : List Char) : List Char :=
  if child.isEmpty then base else base ++ '/' :: child

/-- The project_dir computed by Project._set_names (project.py line
114); davosProjectDir models the DAVOS_PROJECT_DIR constant, which
depends on the home directory. -/
def project_dir (davosProjectDir name : List Char) : List Char :=
  joinPath davosProjectDir (safe_name name)

/-- Construction of a Project through the metaclass: ProjectChecker
classifies and normalizes the name, then Project.__init__ (shared by
ConcreteProject and AbstractProject, project.py lines 85-92) stores the
names and unconditionally runs project_dir.mkdir(parents=False,
exist_ok=True).  The atexit registration is modelled separately by
cleanup_project_dir_atexit. -/
def projectConstruct (fs : FS) (resolve : List Char → List Char)
    (davosProjectDir name : List Char) :
    Except DavosError (ProjClass × List Char × FS) :=
  match projectChecker fs resolve name with
  | .error e => .error e
  | .ok (cls, nm) =>
    match fs.mkdir (project_dir davosProjectDir nm) with
    | .error e => .error e
    | .ok fs2 => .ok (cls, nm, fs2)

/-- Embedding of Project.remove (project.py lines 117-130).  When yes
is false the user is prompted (modelled by the confirmed argument,
the result of prompt_input with default no); a negative response
prints a message and returns with no side effect, otherwise the
project directory is deleted recursively with shutil.rmtree. -/
def Project.remove (fs : FS) (projDir : List Char) (yes confirmed : Bool) :
    Except DavosError FS :=
  if !yes && !confirmed then .ok fs
  else fs.rmtree projDir

/-- Embedding of Project.__del__ (project.py lines 94-102): try to
rmdir the project directory and swallow any OSError. -/
def Project.del (fs : FS) (projDir : List Char) : FS :=
  match fs.rmdir projDir with
  | .ok fs2 => fs2
  | .error _ => fs

/-- Embedding of cleanup_project_dir_atexit (project.py lines
203-214): if the path is a directory with no entries, try to rmdir it
and swallow any OSError; otherwise do nothing. -/
def cleanup_project_dir_atexit (fs : FS) (dirpath : List Char) : FS :=
  if fs.isDir dirpath && !fs.hasChild dirpath then
    match fs.rmdir dirpath with
    | .ok fs2 => fs2
    | .error _ => fs
  else fs

/-- Project.rename (project.py lines 132-134): raises
NotImplementedError for every argument. -/
def Project.rename (new_name : List Char) : Except DavosError Unit :=
  .error .notImplemented

/-- Project.update_name (project.py lines 136-138): raises
NotImplementedError. -/
def Project.update_name : Except DavosError Unit :=
  .error .notImplemented

/-- ConcreteProject.installed_packages (project.py lines 159-162): the
property raises NotImplementedError. -/
def ConcreteProject.installed_packages : Except DavosError (List (List Char)) :=
  .error .notImplemented

/-- Source name _activate_helper (python.py lines 25-48): raises
NotImplementedError for every pair of callables. -/
def activate_helper {A B : Type} (smuggleFunc : A) (parserFunc : B) :
    Except DavosError Unit :=
  .error .notImplemented

/-- Source name _deactivate_helper (python.py lines 87-106): raises
NotImplementedError for every pair of callables. -/
def deactivate_helper {A B : Type} (smuggleFunc : A) (parserFunc : B) :
    Except DavosError Unit :=
  .error .notImplemented

/-- auto_restart_rerun (python.py lines 154-175): raises
NotImplementedError for every package list. -/
def auto_restart_rerun (pkgs : List (List Char)) : Except DavosError Unit :=
  .error .notImplemented

/-- generate_parser_func (python.py lines 178-198): raises
NotImplementedError for every callable. -/
def generate_parser_func {A : Type} (lineParser : A) : Except DavosError Unit :=
  .error .notImplemented

/-- prompt_restart_rerun_buttons (python.py lines 201-222): raises
NotImplementedError for every package list. -/
def prompt_restart_rerun_buttons (pkgs : List (List Char)) : Except DavosError Unit :=
  .error .notImplemented

/-- Attributes looked up on the Project class body by ordinary
attribute search (project.py lines 79-138): the methods defined on the
shared base. -/
def projectNamespaceAttrs : List (List Char) :=
  [strL "_set_names", strL "remove", strL "rename", strL "update_name"]

/-- Instance attributes set by Project._set_names, present on every
constructed instance. -/
def projectInstanceAttrs : List (List Char) :=
  [strL "name", strL "safe_name", strL "project_dir", strL "site_packages_dir"]

/-- Attributes defined only in the ConcreteProject class body
(project.py lines 154-162). -/
def concreteOnlyAttrs : List (List Char) :=
  [strL "installed_packages"]

/-- Outcome of attribute access on an AbstractProject instance. -/
inductive GetattrOutcome
  | found
  | unsupportedForAbstract
  | noAttribute
  deriving DecidableEq

/-- Attribute access on an AbstractProject instance: normal lookup
(instance attributes, then the class bodies along the MRO) succeeds
without consulting __getattr__; only when that fails does
AbstractProject.__getattr__ (project.py lines 143-148) run, raising an
AttributeError whose message depends on hasattr(ConcreteProject, item)
- ConcreteProject inherits the Project namespace as well. -/
def abstractProjectGetattr (item : List Char) : GetattrOutcome :=
  if (projectInstanceAttrs ++ projectNamespaceAttrs).contains item then .found
  else if (concreteOnlyAttrs ++ projectNamespaceAttrs).contains item then
    .unsupportedForAbstract
  else .noAttribute

/-- Embedding of the polling loop of _run_shell_command_helper
(python.py lines 135-151), run on a child process modelled as the list
of output lines it will produce followed by its exit status.  While
lines remain, poll() returns None and one line is read and echoed;
once they are exhausted, poll() returns the exit status.  A non-zero
status raises CalledProcessError carrying it.  A zero status matches
no branch of the loop body, so the loop polls again with nothing
changed; the fuel counts loop iterations, and a result of none means
the loop was still running when the fuel ran out. -/
def runHelperLoop : Nat → List (List Char) → Int → Option (Except DavosError Int)
  | 0, _, _ => none
  | fuel + 1, _ :: rest, code => runHelperLoop fuel rest code
  | fuel + 1, [], code =>
    if code ≠ 0 then some (.error (.calledProcessError code))
    else runHelperLoop fuel [] code

/-- Character-wise description of replacing the path separator: each
'/' becomes the placeholder token, every other character is kept. -/
def subSlash : List Char → List Char
  | [] => []
  | c :: rest => (if c = '/' then pathsepReplacementL else [c]) ++ subSlash rest

/-- Well-formedness of the pre-extension part of a notebook path under
which the flatten/unflatten round trip is exact: the text contains no
occurrence of the placeholder token of its own, and no underscore
directly adjacent to a path separator. -/
def goodQ (q : List Char) : Bool :=
  !occursL ['_', '_', '_'] q && !occursL ['_', '/'] q && !occursL ['/', '_'] q

/-- The inverse transform described by the spec: substitute the
placeholder token back to the path separator and re-append the
notebook extension. -/
def unflattenName (sn : List Char) : List Char :=
  replaceList pathsepReplacementL pathsepL sn ++ ipynbExtL

theorem replaceAux_nil (pat rep : List Char) (fuel : Nat) :
    replaceAux pat rep fuel [] = [] := by
  cases fuel <;> rfl

theorem replaceAux_congr (pat rep : List Char) :
    ∀ (f1 : Nat) {f2 : Nat} {s : List Char}, s.length ≤ f1 → s.length ≤ f2 →
      replaceAux pat rep f1 s = replaceAux pat rep f2 s := by
  intro f1
  induction f1 with
  | zero =>
    intro f2 s h1 _
    have hs : s = [] := List.eq_nil_of_length_eq_zero (Nat.le_zero.mp h1)
    subst hs
    rw [replaceAux_nil, replaceAux_nil]
  | succ f ih =>
    intro f2 s h1 h2
    cases s with
    | nil => rw [replaceAux_nil, replaceAux_nil]
    | cons c rest =>
      cases f2 with
      | zero => exact absurd h2 (by simp)
      | succ f2' =>
        show replaceAux pat rep (f + 1) (c :: rest) = replaceAux pat rep (f2' + 1) (c :: rest)
        simp only [replaceAux]
        by_cases hcond : (!pat.isEmpty && isPrefixL pat (c :: rest)) = true
        · rw [if_pos hcond, if_pos hcond]
          have hpat : 0 < pat.length := by
            cases pat with
            | nil => simp at hcond
            | cons a as => simp
          have hlen : ((c :: rest).drop pat.length).length ≤ rest.length := by
            simp only [List.length_drop, List.length_cons]
            omega
          have hr1 : ((c :: rest).drop pat.length).length ≤ f := by
            have : rest.length ≤ f := by simpa using Nat.succ_le_succ_iff.mp h1
            omega
          have hr2 : ((c :: rest).drop pat.length).length ≤ f2' := by
            have : rest.length ≤ f2' := by simpa using Nat.succ_le_succ_iff.mp h2
            omega
          rw [ih hr1 hr2]
        · rw [if_neg hcond, if_neg hcond]
          have hr1 : rest.length ≤ f := by simpa using Nat.succ_le_succ_iff.mp h1
          have hr2 : rest.length ≤ f2' := by simpa using Nat.succ_le_succ_iff.mp h2
          rw [ih hr1 hr2]

theorem replaceList_nil (pat rep : List Char) : replaceList pat rep [] = [] := rfl

theorem replaceList_pos (pat rep s : List Char) (hpat : pat ≠ [])
    (hpre : isPrefixL pat s = true) :
    replaceList pat rep s = rep ++ replaceList pat rep (s.drop pat.length) := by
  cases s with
  | nil =>
    cases pat with
    | nil => exact absurd rfl hpat
    | cons a as => simp [isPrefixL] at hpre
  | cons c rest =>
    show replaceAux pat rep (rest.length + 1) (c :: rest) = _
    simp only [replaceAux]
    have hcond : (!pat.isEmpty && isPrefixL pat (c :: rest)) = true := by
      cases pat with
      | nil => exact absurd rfl hpat
      | cons a as => simp [hpre]
    rw [if_pos hcond]
    have hpl : 0 < pat.length := List.length_pos.mpr hpat
    have h1 : ((c :: rest).drop pat.length).length ≤ rest.length := by
      simp only [List.length_drop, List.length_cons]
      omega
    exact congrArg (rep ++ ·) (replaceAux_congr pat rep rest.length h1 (Nat.le_refl _))

theorem replaceList_neg (pat rep : List Char) (c : Char) (rest : List Char)
    (hpre : isPrefixL pat (c :: rest) = false) :
    replaceList pat rep (c :: rest) = c :: replaceList pat rep rest := by
  show replaceAux pat rep (rest.length + 1) (c :: rest) = _
  simp only [replaceAux]
  rw [if_neg (by simp [hpre])]
  rfl

theorem isPrefixL_self (l : List Char) : isPrefixL l l = true := by
  induction l with
  | nil => rfl
  | cons a as ih => simp [isPrefixL, ih]

/-- Deleting a non-empty pattern from a string that ends with the
pattern and contains no other occurrence of it leaves exactly the part
before the pattern. -/
theorem replaceList_strip_end (pat a : List Char) (hpat : pat ≠ [])
    (h : ∀ i, i < a.length → isPrefixL pat ((a ++ pat).drop i) = false) :
    replaceList pat [] (a ++ pat) = a := by
  induction a with
  | nil =>
    rw [List.nil_append, replaceList_pos pat [] pat hpat (isPrefixL_self pat),
      List.drop_length, replaceList_nil]
    rfl
  | cons c a2 ih =>
    have h0 : isPrefixL pat (c :: (a2 ++ pat)) = false := by
      have := h 0 (by simp)
      simpa using this
    rw [List.cons_append, replaceList_neg pat [] c (a2 ++ pat) h0]
    rw [ih (fun i hi => by
      have := h (i + 1) (by simpa using Nat.succ_lt_succ hi)
      simpa using this)]

theorem subSlash_eq_replace (s : List Char) :
    replaceList pathsepL pathsepReplacementL s = subSlash s := by
  induction s with
  | nil => rfl
  | cons c rest ih =>
    by_cases hc : c = '/'
    · subst hc
      have hpre : isPrefixL pathsepL ('/' :: rest) = true := by
        simp [pathsepL, isPrefixL]
      rw [replaceList_pos pathsepL pathsepReplacementL ('/' :: rest) (by simp [pathsepL]) hpre]
      rw [show ('/' :: rest).drop pathsepL.length = rest from rfl]
      rw [ih]
      simp [subSlash]
    · have hpre : isPrefixL pathsepL (c :: rest) = false := by
        simp [pathsepL, isPrefixL]
        exact fun h => absurd h.symm hc
      rw [replaceList_neg pathsepL pathsepReplacementL c rest hpre, ih]
      simp [subSlash, hc]

theorem subSlash_append (a b : List Char) :
    subSlash (a ++ b) = subSlash a ++ subSlash b := by
  induction a with
  | nil => rfl
  | cons c rest ih => simp [subSlash, ih]

theorem occursL_of_isPrefixL {pat : List Char} {c : Char} {rest : List Char}
    (h : isPrefixL pat (c :: rest) = true) : occursL pat (c :: rest) = true := by
  simp [occursL, h]

theorem occursL_tail {pat : List Char} (c : Char) {rest : List Char}
    (h : occursL pat rest = true) : occursL pat (c :: rest) = true := by
  simp [occursL, h]

theorem goodQ_parts {Q : List Char} (h : goodQ Q = true) :
    occursL ['_', '_', '_'] Q = false ∧ occursL ['_', '/'] Q = false ∧
      occursL ['/', '_'] Q = false := by
  simp only [goodQ, Bool.and_eq_true, Bool.not_eq_true'] at h
  exact ⟨h.1.1, h.1.2, h.2⟩

theorem goodQ_tail {c : Char} {R : List Char} (h : goodQ (c :: R) = true) :
    goodQ R = true := by
  obtain ⟨h1, h2, h3⟩ := goodQ_parts h
  simp only [occursL, Bool.or_eq_false_iff] at h1 h2 h3
  simp only [goodQ, Bool.and_eq_true, Bool.not_eq_true']
  exact ⟨⟨h1.2, h2.2⟩, h3.2⟩

/-- Replacing the placeholder token back by the path separator inverts
`subSlash` on every string satisfying `goodQ`. -/
theorem unflat_subSlash : ∀ (Q : List Char), goodQ Q = true →
    replaceList pathsepReplacementL pathsepL (subSlash Q) = Q := by
  intro Q
  induction Q with
  | nil => intro _; rfl
  | cons c R ih =>
    intro h
    have hR : goodQ R = true := goodQ_tail h
    by_cases hc : c = '/'
    · subst hc
      have hs : subSlash ('/' :: R) = '_' :: '_' :: '_' :: subSlash R := by
        simp [subSlash, pathsepReplacementL]
      rw [hs]
      have hpre : isPrefixL pathsepReplacementL ('_' :: '_' :: '_' :: subSlash R) = true := by
        simp [pathsepReplacementL, isPrefixL]
      rw [replaceList_pos _ _ _ (by simp [pathsepReplacementL]) hpre]
      rw [show ('_' :: '_' :: '_' :: subSlash R).drop pathsepReplacementL.length
            = subSlash R from rfl]
      rw [ih hR]
      rfl
    · have hs : subSlash (c :: R) = c :: subSlash R := by simp [subSlash, hc]
      rw [hs]
      have hnp : isPrefixL pathsepReplacementL (c :: subSlash R) = false := by
        by_cases hu : c = '_'
        · subst hu
          have h2 : isPrefixL ['_', '_'] (subSlash R) = false := by
            cases R with
            | nil => rfl
            | cons d R2 =>
              by_cases hd : d = '/'
              · exfalso
                subst hd
                have hb := (goodQ_parts h).2.1
                have hocc : occursL ['_', '/'] ('_' :: '/' :: R2) = true :=
                  occursL_of_isPrefixL (by rfl)
                exact Bool.noConfusion (hocc.symm.trans hb)
              · by_cases hdu : d = '_'
                · subst hdu
                  have hs2 : subSlash ('_' :: R2) = '_' :: subSlash R2 := by
                    simp [subSlash]
                  rw [hs2]
                  have h1 : isPrefixL ['_'] (subSlash R2) = false := by
                    cases R2 with
                    | nil => rfl
                    | cons e R3 =>
                      by_cases he : e = '/'
                      · exfalso
                        subst he
                        have hb := (goodQ_parts h).2.1
                        have hocc : occursL ['_', '/'] ('_' :: '_' :: '/' :: R3) = true :=
                          occursL_tail '_' (occursL_of_isPrefixL (by rfl))
                        exact Bool.noConfusion (hocc.symm.trans hb)
                      · by_cases heu : e = '_'
                        · exfalso
                          subst heu
                          have hb := (goodQ_parts h).1
                          have hocc : occursL ['_', '_', '_'] ('_' :: '_' :: '_' :: R3)
                              = true := occursL_of_isPrefixL (by rfl)
                          exact Bool.noConfusion (hocc.symm.trans hb)
                        · have hs3 : subSlash (e :: R3) = e :: subSlash R3 := by
                            simp [subSlash, he]
                          rw [hs3]
                          have hbe : ('_' == e) = false :=
                            beq_eq_false_iff_ne.mpr (fun hh => heu hh.symm)
                          rw [show isPrefixL ['_'] (e :: subSlash R3)
                                = (('_' == e) && isPrefixL [] (subSlash R3)) from rfl]
                          simp [hbe]
                  rw [show isPrefixL ['_', '_'] ('_' :: subSlash R2)
                        = (('_' == '_') && isPrefixL ['_'] (subSlash R2)) from rfl]
                  simp [h1]
                · have hs2 : subSlash (d :: R2) = d :: subSlash R2 := by
                    simp [subSlash, hd]
                  rw [hs2]
                  have hbd : ('_' == d) = false :=
                    beq_eq_false_iff_ne.mpr (fun hh => hdu hh.symm)
                  rw [show isPrefixL ['_', '_'] (d :: subSlash R2)
                        = (('_' == d) && isPrefixL ['_'] (subSlash R2)) from rfl]
                  simp [hbd]
          rw [show isPrefixL pathsepReplacementL ('_' :: subSlash R)
                = (('_' == '_') && isPrefixL ['_', '_'] (subSlash R)) from rfl]
          simp [h2]
        · have hbc : ('_' == c) = false :=
            beq_eq_false_iff_ne.mpr (fun hh => hu hh.symm)
          rw [show isPrefixL pathsepReplacementL (c :: subSlash R)
                = (('_' == c) && isPrefixL ['_', '_'] (subSlash R)) from rfl]
          simp [hbc]
      rw [replaceList_neg _ _ _ _ hnp, ih hR]

theorem mkdir_error_kind (fs : FS) (p : List Char) (e : DavosError)
    (h : fs.mkdir p = .error e) : e = .fileNotFoundError := by
  unfold FS.mkdir at h
  split at h
  · exact absurd h (by simp)
  · split at h
    · exact absurd h (by simp)
    · injection h with h2
      exact h2.symm

theorem mkdir_isDir (fs : FS) (p : List Char) (f2 : FS) (h : fs.mkdir p = .ok f2) :
    f2.isDir p = true := by
  unfold FS.mkdir at h
  split at h
  case isTrue hc =>
    injection h with h2
    rw [← h2]
    exact hc
  case isFalse =>
    split at h
    · injection h with h2
      rw [← h2]
      simp [FS.isDir]
    · exact absurd h (by simp)

theorem rmtree_removes (fs : FS) (p : List Char) (h : fs.isDir p = true) :
    ∃ fs2, fs.rmtree p = .ok fs2 ∧ fs2.isDir p = false ∧
      ∀ q, strictUnder p q = true → fs2.isDir q = false ∧ fs2.isFile q = false := by
  refine ⟨{ dirs := fs.dirs.filter (fun d => !underEq p d),
            files := fs.files.filter (fun f => !strictUnder p f) }, ?_, ?_, ?_⟩
  · unfold FS.rmtree
    rw [if_pos h]
  · simp only [FS.isDir, decide_eq_false_iff_not]
    intro hm
    have hmf := List.mem_filter.mp hm
    have hu : underEq p p = true := by simp [underEq]
    simp [hu] at hmf
  · intro q hq
    constructor
    · simp only [FS.isDir, decide_eq_false_iff_not]
      intro hm
      have hmf := List.mem_filter.mp hm
      have hu : underEq p q = true := by
        simp [underEq, show isPrefixL (p ++ ['/']) q = true from hq]
      simp [hu] at hmf
    · simp only [FS.isFile, decide_eq_false_iff_not]
      intro hm
      have hmf := List.mem_filter.mp hm
      simp [show strictUnder p q = true from hq] at hmf

theorem rmdir_empty_removes (fs : FS) (p : List Char) (hd : fs.isDir p = true)
    (hc : fs.hasChild p = false) :
    fs.rmdir p = .ok { fs with dirs := fs.dirs.filter (fun d => !(d == p)) } := by
  unfold FS.rmdir
  rw [if_neg (by simp [hd]), if_neg (by simp [hc])]

theorem filtered_self_not_dir (fs : FS) (p : List Char) :
    (FS.mk (fs.dirs.filter (fun d => !(d == p))) fs.files).isDir p = false := by
  simp only [FS.isDir, decide_eq_false_iff_not]
  intro hm
  have hmf := List.mem_filter.mp hm
  simp at hmf

/-- Claim C1 is false on the code: AbstractProject does not override
Project.__init__, so constructing an Abstract project also runs
project_dir.mkdir.  Concretely, on a filesystem holding only the davos
projects directory, constructing a Project from the path of a
non-existent notebook yields an AbstractProject and nevertheless
creates its project_dir on disk. -/
theorem c1_counterexample :
    projectConstruct (FS.mk [strL "/h/.davos/projects"] []) (fun s => s)
        (strL "/h/.davos/projects") (strL "/x/nb.ipynb")
      = .ok (.abstract, strL "/x/nb.ipynb",
          FS.mk [strL "/h/.davos/projects/___x___nb", strL "/h/.davos/projects"] [])
    ∧ (FS.mk [strL "/h/.davos/projects"] []).isDir
        (strL "/h/.davos/projects/___x___nb") = false
    ∧ (FS.mk [strL "/h/.davos/projects/___x___nb", strL "/h/.davos/projects"] []).isDir
        (strL "/h/.davos/projects/___x___nb") = true :=
  ⟨by rfl, by decide, by decide⟩

/-- Claim C1, amended: constructing a project of either variant creates
its project_dir on disk during construction.  Whenever construction
succeeds - whether the classified variant is Concrete or Abstract -
the project directory exists on the resulting filesystem. -/
theorem c1_construct_creates_project_dir (fs : FS) (resolve : List Char → List Char)
    (davosProjectDir name : List Char) (cls : ProjClass) (nm : List Char) (fs2 : FS)
    (h : projectConstruct fs resolve davosProjectDir name = .ok (cls, nm, fs2)) :
    fs2.isDir (project_dir davosProjectDir nm) = true := by
  unfold projectConstruct at h
  cases hch : projectChecker fs resolve name with
  | error e =>
    simp only [hch] at h
    exact Except.noConfusion h
  | ok pr =>
    obtain ⟨cls0, nm0⟩ := pr
    simp only [hch] at h
    cases hmk : fs.mkdir (project_dir davosProjectDir nm0) with
    | error e =>
      simp only [hmk] at h
      exact Except.noConfusion h
    | ok f2 =>
      simp only [hmk, Except.ok.injEq, Prod.mk.injEq] at h
      obtain ⟨rfl, rfl, rfl⟩ := h
      exact mkdir_isDir fs _ f2 hmk

/-- Witness instantiating the amended C1 theorem on the Abstract case
of the counterexample scenario. -/
theorem c1_witness :
    (FS.mk [strL "/h/.davos/projects/___x___nb", strL "/h/.davos/projects"] []).isDir
      (project_dir (strL "/h/.davos/projects") (strL "/x/nb.ipynb")) = true :=
  c1_construct_creates_project_dir (FS.mk [strL "/h/.davos/projects"] []) (fun s => s)
    (strL "/h/.davos/projects") (strL "/x/nb.ipynb") .abstract (strL "/x/nb.ipynb")
    (FS.mk [strL "/h/.davos/projects/___x___nb", strL "/h/.davos/projects"] []) (by rfl)

/-- Claim C2 is false on the code as stated: safe_name deletes every
occurrence of ".ipynb" and the placeholder substitution cannot tell a
genuine "___" in a path component from a flattened separator.  The
path "/a___b.ipynb" is accepted by the identity resolver (it is
absolute, ends in the notebook extension, and resolves to itself), yet
flattening and unflattening it yields "/a/b.ipynb". -/
theorem c2_counterexample :
    projectChecker (FS.mk [] []) (fun s => s) (strL "/a___b.ipynb")
      = .ok (.abstract, strL "/a___b.ipynb")
    ∧ unflattenName (safe_name (strL "/a___b.ipynb")) = strL "/a/b.ipynb"
    ∧ unflattenName (safe_name (strL "/a___b.ipynb")) ≠ strL "/a___b.ipynb" :=
  ⟨by rfl, by rfl, by decide⟩

/-- Claim C2, amended: the flatten-then-unflatten round trip
reproduces P exactly for every resolved notebook path P whose
pre-extension text is hygienic: it contains no occurrence of the
placeholder token, no underscore directly adjacent to a path
separator, and no occurrence of the notebook extension other than the
final one. -/
theorem c2_round_trip (Q : List Char) (hgood : goodQ Q = true)
    (hext : ∀ i, i < (subSlash Q).length →
      isPrefixL ipynbExtL ((subSlash Q ++ ipynbExtL).drop i) = false) :
    unflattenName (safe_name (Q ++ ipynbExtL)) = Q ++ ipynbExtL := by
  unfold unflattenName safe_name
  rw [subSlash_eq_replace, subSlash_append,
    show subSlash ipynbExtL = ipynbExtL from rfl,
    replaceList_strip_end ipynbExtL (subSlash Q) (by simp [ipynbExtL]) hext,
    unflat_subSlash Q hgood]

/-- Witness instantiating the amended C2 theorem on the path
"/h/u/nb.ipynb". -/
theorem c2_witness :
    goodQ (strL "/h/u/nb") = true
    ∧ unflattenName (safe_name (strL "/h/u/nb" ++ ipynbExtL)) = strL "/h/u/nb" ++ ipynbExtL :=
  ⟨by decide, c2_round_trip (strL "/h/u/nb") (by decide) (by decide)⟩

/-- Claim C3 identifies a code bug: the polling loop of
_run_shell_command_helper has no branch for a zero exit status, so on
a child process that exits with status 0 the helper never returns (no
amount of loop iterations produces a result), although its own
docstring promises that it returns the exit status 0; a non-zero exit
status does raise CalledProcessError carrying the code, as claimed. -/
theorem c3_zero_exit_never_returns (fuel : Nat) :
    runHelperLoop fuel [] 0 = none
    ∧ runHelperLoop (fuel + 1) [] 7 = some (.error (.calledProcessError 7)) := by
  induction fuel with
  | zero => exact ⟨rfl, by rfl⟩
  | succ n ih =>
    refine ⟨?_, by rfl⟩
    show runHelperLoop (n + 1) [] 0 = none
    simp only [runHelperLoop]
    rw [if_neg (by simp)]
    exact ih.1

/-- Claim C4: a name containing the placeholder token and no path
separator is handled by the recovery branch of ProjectChecker, which
raises nothing: the checker always returns a class and the recovered
path string (the flattening reversed and the notebook extension
re-appended, as normalized by pathlib); the class is Concrete exactly
when the recovered file exists; and full construction can therefore
never fail with the naming error either. -/
theorem c4_recovered_name_never_raises (fs : FS) (resolve : List Char → List Char)
    (name : List Char) (hnosep : occursL pathsepL name = false)
    (hrepl : occursL pathsepReplacementL name = true) :
    projectChecker fs resolve name =
      .ok (if fs.isFile (pathNormStr (replaceList pathsepReplacementL pathsepL name
              ++ ipynbExtL))
           then .concrete else .abstract,
           pathNormStr (replaceList pathsepReplacementL pathsepL name ++ ipynbExtL))
    ∧ ∀ davosProjectDir,
        projectConstruct fs resolve davosProjectDir name ≠ .error .davosProjectError := by
  have hch : projectChecker fs resolve name =
      .ok (if fs.isFile (pathNormStr (replaceList pathsepReplacementL pathsepL name
              ++ ipynbExtL))
           then .concrete else .abstract,
           pathNormStr (replaceList pathsepReplacementL pathsepL name ++ ipynbExtL)) := by
    unfold projectChecker
    rw [if_neg (by simp [hnosep]), if_pos hrepl]
    cases hf : fs.isFile (pathNormStr (replaceList pathsepReplacementL pathsepL name
        ++ ipynbExtL)) <;> simp [hf]
  refine ⟨hch, fun davosProjectDir hcon => ?_⟩
  unfold projectConstruct at hcon
  simp only [hch] at hcon
  cases hmk : fs.mkdir (project_dir davosProjectDir
      (pathNormStr (replaceList pathsepReplacementL pathsepL name ++ ipynbExtL))) with
  | error e =>
    simp only [hmk, Except.error.injEq] at hcon
    have := mkdir_error_kind _ _ _ hmk
    subst this
    exact DavosError.noConfusion hcon
  | ok f2 =>
    simp only [hmk] at hcon
    exact Except.noConfusion hcon

/-- Witness instantiating the C4 theorem on the malformed recovered
name "proj___x" over an empty filesystem. -/
theorem c4_witness :
    occursL pathsepL (strL "proj___x") = false
    ∧ occursL pathsepReplacementL (strL "proj___x") = true
    ∧ projectChecker (FS.mk [] []) (fun s => s) (strL "proj___x")
        = .ok (.abstract, strL "proj/x.ipynb") := by
  refine ⟨by decide, by decide, ?_⟩
  have h := (c4_recovered_name_never_raises (FS.mk [] []) (fun s => s) (strL "proj___x")
    (by decide) (by decide)).1
  rw [h]
  rfl

/-- Claim C5: an input containing a path separator whose resolved path
lacks the notebook extension (in the pathlib suffix sense) or is an
existing directory makes the checker - and hence construction - fail
with the DavosProjectError naming error, whether or not the resolved
path exists; no class/name pair is produced. -/
theorem c5_invalid_path_raises (fs : FS) (resolve : List Char → List Char)
    (name : List Char) (hsep : occursL pathsepL name = true)
    (hbad : pathSuffix (resolve name) ≠ ipynbExtL ∨ fs.isDir (resolve name) = true) :
    projectChecker fs resolve name = .error .davosProjectError
    ∧ ∀ davosProjectDir,
        projectConstruct fs resolve davosProjectDir name = .error .davosProjectError := by
  have hch : projectChecker fs resolve name = .error .davosProjectError := by
    unfold projectChecker
    rw [if_pos hsep]
    have hcond : (!(pathSuffix (resolve name) == ipynbExtL) || fs.isDir (resolve name))
        = true := by
      rcases hbad with hb | hb
      · have : (pathSuffix (resolve name) == ipynbExtL) = false :=
          beq_eq_false_iff_ne.mpr hb
        simp [this]
      · simp [hb]
    rw [if_pos hcond]
  refine ⟨hch, fun davosProjectDir => ?_⟩
  unfold projectConstruct
  rw [hch]

/-- Witness instantiating the C5 theorem on the path "/a/b.txt" with
identity resolution over an empty filesystem. -/
theorem c5_witness :
    occursL pathsepL (strL "/a/b.txt") = true
    ∧ projectChecker (FS.mk [] []) (fun s => s) (strL "/a/b.txt")
        = .error .davosProjectError :=
  ⟨by decide, (c5_invalid_path_raises (FS.mk [] []) (fun s => s) (strL "/a/b.txt")
    (by decide) (Or.inl (by decide))).1⟩

/-- Claim C6: a plain name with no path separator and no placeholder
token falls through both special branches of ProjectChecker, so the
result is a Concrete project whose normalized name is the input
itself, whatever the filesystem and resolution environment are - in
particular no existence check is consulted. -/
theorem c6_plain_name_concrete (name : List Char)
    (hnosep : occursL pathsepL name = false)
    (hnorepl : occursL pathsepReplacementL name = false) :
    ∀ (fs : FS) (resolve : List Char → List Char),
      projectChecker fs resolve name = .ok (.concrete, name) := by
  intro fs resolve
  unfold projectChecker
  rw [if_neg (by simp [hnosep]), if_neg (by simp [hnorepl])]

/-- Witness instantiating the C6 theorem on the name "myproj" over two
different filesystems, showing the result does not depend on disk
state. -/
theorem c6_witness :
    occursL pathsepL (strL "myproj") = false
    ∧ occursL pathsepReplacementL (strL "myproj") = false
    ∧ projectChecker (FS.mk [] []) (fun s => s) (strL "myproj")
        = .ok (.concrete, strL "myproj")
    ∧ projectChecker (FS.mk [strL "/d"] [strL "/f"]) (fun _ => strL "/other")
        (strL "myproj") = .ok (.concrete, strL "myproj") :=
  ⟨by decide, by decide,
    c6_plain_name_concrete (strL "myproj") (by decide) (by decide) (FS.mk [] []) (fun s => s),
    c6_plain_name_concrete (strL "myproj") (by decide) (by decide)
      (FS.mk [strL "/d"] [strL "/f"]) (fun _ => strL "/other")⟩

/-- Claim C7: remove() with the confirmation bypass recursively
deletes the project directory and everything under it, and remove()
without the bypass answered negatively returns normally with the
filesystem unchanged. -/
theorem c7_remove_behavior (fs : FS) (projDir : List Char) (confirmed : Bool)
    (h : fs.isDir projDir = true) :
    (∃ fs2, Project.remove fs projDir true confirmed = .ok fs2
        ∧ fs2.isDir projDir = false
        ∧ ∀ q, strictUnder projDir q = true → fs2.isDir q = false ∧ fs2.isFile q = false)
    ∧ Project.remove fs projDir false false = .ok fs := by
  constructor
  · obtain ⟨fs2, h1, h2, h3⟩ := rmtree_removes fs projDir h
    exact ⟨fs2, by simpa [Project.remove] using h1, h2, h3⟩
  · simp [Project.remove]

/-- Witness instantiating the C7 theorem on a project directory
containing a file and a subdirectory. -/
theorem c7_witness :
    (FS.mk [strL "/p", strL "/p/sub"] [strL "/p/a.txt"]).isDir (strL "/p") = true
    ∧ ((∃ fs2, Project.remove (FS.mk [strL "/p", strL "/p/sub"] [strL "/p/a.txt"])
          (strL "/p") true false = .ok fs2
        ∧ fs2.isDir (strL "/p") = false
        ∧ ∀ q, strictUnder (strL "/p") q = true → fs2.isDir q = false ∧ fs2.isFile q = false)
      ∧ Project.remove (FS.mk [strL "/p", strL "/p/sub"] [strL "/p/a.txt"])
          (strL "/p") false false
          = .ok (FS.mk [strL "/p", strL "/p/sub"] [strL "/p/a.txt"])) :=
  ⟨by decide, c7_remove_behavior (FS.mk [strL "/p", strL "/p/sub"] [strL "/p/a.txt"])
    (strL "/p") false (by decide)⟩

/-- Claim C8: both advisory cleanup paths - the finalizer __del__ and
the atexit hook - remove the project directory when it exists and is
empty, leave the filesystem unchanged when it is non-empty, and leave
the filesystem unchanged when the directory is already gone; both are
total functions, so no error ever escapes them. -/
theorem c8_advisory_cleanup (fs : FS) (p : List Char) :
    (fs.isDir p = true → fs.hasChild p = false →
      (Project.del fs p).isDir p = false
        ∧ (cleanup_project_dir_atexit fs p).isDir p = false)
    ∧ (fs.hasChild p = true →
        Project.del fs p = fs ∧ cleanup_project_dir_atexit fs p = fs)
    ∧ (fs.isDir p = false →
        Project.del fs p = fs ∧ cleanup_project_dir_atexit fs p = fs) := by
  refine ⟨?_, ?_, ?_⟩
  · intro hd hc
    have hrm := rmdir_empty_removes fs p hd hc
    constructor
    · unfold Project.del
      rw [hrm]
      exact filtered_self_not_dir fs p
    · unfold cleanup_project_dir_atexit
      rw [if_pos (by simp [hd, hc]), hrm]
      exact filtered_self_not_dir fs p
  · intro hc
    have hrm : fs.rmdir p = .error .osError := by
      unfold FS.rmdir
      cases hd : fs.isDir p
      · rw [if_pos (by simp [hd])]
      · rw [if_neg (by simp [hd]), if_pos hc]
    constructor
    · unfold Project.del
      rw [hrm]
    · unfold cleanup_project_dir_atexit
      rw [if_neg (by simp [hc])]
  · intro hd
    have hrm : fs.rmdir p = .error .osError := by
      unfold FS.rmdir
      rw [if_pos (by simp [hd])]
    constructor
    · unfold Project.del
      rw [hrm]
    · unfold cleanup_project_dir_atexit
      rw [if_neg (by simp [hd])]

/-- Witness instantiating the C8 theorem: an empty directory is
removed by both cleanup paths. -/
theorem c8_witness :
    (Project.del (FS.mk [strL "/e"] []) (strL "/e")).isDir (strL "/e") = false
    ∧ (cleanup_project_dir_atexit (FS.mk [strL "/e"] []) (strL "/e")).isDir
        (strL "/e") = false :=
  (c8_advisory_cleanup (FS.mk [strL "/e"] []) (strL "/e")).1 (by decide) (by decide)

/-- Claim C9: every capability marked not-implemented - rename,
update_name, the installed-package listing, and the whole
non-interactive shim set - fails with the NotImplementedError signal
for every argument value. -/
theorem c9_not_implemented_stubs {A B C : Type} (a : A) (b : B) (lp : C)
    (newName : List Char) (pkgs pkgs2 : List (List Char)) :
    Project.rename newName = .error .notImplemented
    ∧ Project.update_name = .error .notImplemented
    ∧ ConcreteProject.installed_packages = .error .notImplemented
    ∧ activate_helper a b = .error .notImplemented
    ∧ deactivate_helper a b = .error .notImplemented
    ∧ auto_restart_rerun pkgs = .error .notImplemented
    ∧ generate_parser_func lp = .error .notImplemented
    ∧ prompt_restart_rerun_buttons pkgs2 = .error .notImplemented :=
  ⟨rfl, rfl, rfl, rfl, rfl, rfl, rfl, rfl⟩

/-- Witness instantiating the C9 theorem at concrete arguments. -/
theorem c9_witness :
    Project.rename (strL "nb2") = .error .notImplemented
    ∧ Project.update_name = .error .notImplemented
    ∧ ConcreteProject.installed_packages = .error .notImplemented
    ∧ activate_helper (0 : Nat) (1 : Nat) = .error .notImplemented
    ∧ deactivate_helper (0 : Nat) (1 : Nat) = .error .notImplemented
    ∧ auto_restart_rerun [strL "numpy"] = .error .notImplemented
    ∧ generate_parser_func (2 : Nat) = .error .notImplemented
    ∧ prompt_restart_rerun_buttons [strL "numpy"] = .error .notImplemented :=
  c9_not_implemented_stubs (0 : Nat) (1 : Nat) (2 : Nat) (strL "nb2")
    [strL "numpy"] [strL "numpy"]

/-- Claim C10: on an AbstractProject, ordinary attribute lookup finds
everything defined on the shared Project base - __getattr__ and its
unsupported-for-abstract rejection fire only for attributes that exist
solely on ConcreteProject, such as installed_packages - so remove()
with the confirmation bypass runs the shared implementation and
recursively deletes the project directory instead of raising. -/
theorem c10_abstract_remove_callable (fs : FS) (projDir : List Char) (confirmed : Bool)
    (h : fs.isDir projDir = true) :
    abstractProjectGetattr (strL "remove") = .found
    ∧ abstractProjectGetattr (strL "installed_packages") = .unsupportedForAbstract
    ∧ ∃ fs2, Project.remove fs projDir true confirmed = .ok fs2
        ∧ fs2.isDir projDir = false := by
  refine ⟨by decide, by decide, ?_⟩
  obtain ⟨fs2, h1, h2, _⟩ := rmtree_removes fs projDir h
  exact ⟨fs2, by simpa [Project.remove] using h1, h2⟩

/-- Witness instantiating the C10 theorem on an abstract project whose
directory holds a file. -/
theorem c10_witness :
    abstractProjectGetattr (strL "remove") = .found
    ∧ abstractProjectGetattr (strL "installed_packages") = .unsupportedForAbstract
    ∧ ∃ fs2, Project.remove (FS.mk [strL "/q"] [strL "/q/pkg"]) (strL "/q") true true
        = .ok fs2 ∧ fs2.isDir (strL "/q") = false :=
  c10_abstract_remove_callable (FS.mk [strL "/q"] [strL "/q/pkg"]) (strL "/q") true
    (by decide)
